import Mathlib

/-!
Verification development for the winc-cloner firmware module
(src/firmware/src/winc_cloner.c).

The module clones the contents of a WINC flash device (the Medium) to and
from a file (the Container), sector by sector, and synthesizes a PLL/gain
calibration table.  We give a shallow embedding of the relevant functions:

* the device session manager (open_winc, flag s_winc_is_opened);
* the file wrapper cloner_aux (open, run inner loop, close);
* the per-sector primitives winc_sector_read / winc_sector_write;
* the update and compare loops;
* the byte layout of winc3400_pll_table_build and the frequency sequence
  used by its second loop.

Build-time constants coming from the external header spi_flash_map.h
(FLASH_SECTOR_SZ, M2M_PLL_FLASH_OFFSET, M2M_CONFIG_SECT_TOTAL_SZ) are not
part of this repository; following the spec they are modelled as abstract
parameters, collected in the structure FlashMap.  Medium I/O primitives and
file reads may fail at run time; failures are modelled by boolean oracles
describing one particular execution.
-/

namespace WincCloner

/-- Result codes of the per-sector operations, from winc_cloner.c. -/
inductive sector_result_t where
  | SECTOR_OKAY
  | SECTOR_ERROR
  | SECTOR_EQUAL
  | SECTOR_DIFFER
  | SECTOR_SKIPPED
deriving DecidableEq, Repr

/-- Modelled from the spec: the build-time constants taken from the external
header spi_flash_map.h, which is not part of this repository.  The spec
calls them the sector size S and the Protected Region bounds. -/
structure FlashMap where
  sectorSz : Nat      -- FLASH_SECTOR_SZ
  pllOff : Nat        -- M2M_PLL_FLASH_OFFSET
  configTotalSz : Nat -- M2M_CONFIG_SECT_TOTAL_SZ
deriving Repr

-- ---------------------------------------------------------------------------
-- Device session manager (open_winc / s_winc_is_opened)

/-- Shallow embedding of open_winc (winc_cloner.c lines 605-617), as a pure
function of the result the external primitive m2m_wifi_download_mode would
return if invoked (downloadOk) and the current value of the static flag
s_winc_is_opened.  Returns (return value, new flag value, whether the
primitive was invoked).  Note that the source sets s_winc_is_opened = true
in BOTH branches, including the failure branch that logs
"Could not access WINC". -/
def open_winc (downloadOk : Bool) (s_winc_is_opened : Bool) : Bool × Bool × Bool :=
  if s_winc_is_opened then
    (s_winc_is_opened, s_winc_is_opened, false)
  else if downloadOk = false then
    -- failure branch: the source still sets s_winc_is_opened = true
    (true, true, true)
  else
    (true, true, true)

/-- Number of invocations of m2m_wifi_download_mode over a sequence of
session acquisitions.  Each engine operation (extract, update, compare,
rebuild) performs exactly one open_winc call at its start; the list entry
gives the result the primitive would return if invoked during that call. -/
def session_invocations : Bool → List Bool → Nat
  | _, [] => 0
  | s, d :: ds =>
    let r := open_winc d s
    (if r.2.2 then 1 else 0) + session_invocations r.2.1 ds

-- ---------------------------------------------------------------------------
-- cloner_aux: open the container, run the inner loop, close the container

/-- File events observable on the Container during one engine operation. -/
inductive FsEvent where
  | fileOpened
  | fileClosed
deriving DecidableEq, Repr

/-- Shallow embedding of cloner_aux (winc_cloner.c lines 349-375).  The
inner loop (extract_loop, update_loop or compare_loop) is abstracted by its
boolean outcome, exactly as the source passes it as a function pointer and
only uses its return value.  Returns the overall result and the trace of
file open/close events, in order. -/
def cloner_aux (winc_ok : Bool) (open_ok : Bool) (inner_result : Bool) :
    Bool × List FsEvent :=
  if winc_ok = false then
    (false, [])
  else if open_ok = false then
    -- SYS_FS_FileOpen returned SYS_FS_HANDLE_INVALID: nothing was opened
    (false, [])
  else
    -- inner_loop runs, then SYS_FS_FileClose is executed unconditionally
    (inner_result, [FsEvent.fileOpened, FsEvent.fileClosed])

-- ---------------------------------------------------------------------------
-- PLL table synthesis: frequency sequence and byte layout

/-- The value of the loop variable lo at index freq in the second loop of
winc3400_pll_table_build (winc_cloner.c lines 580-590): lo starts at 3840.0,
is overridden to 4802.0 when freq == 1, and is incremented by 2 at every
step.  All values are even integers, representable exactly, so we model the
sequence over Nat (in MHz). -/
def freqLo : Nat → Nat
  | 0 => 3840
  | 1 => 4802
  | k + 2 => freqLo (k + 1) + 2

/-- Channel parameter record, from the struct tstrChannelParm of
winc_cloner.c (lines 119-128); fields in declaration (memory) order. -/
structure tstrChannelParm where
  u32PllInternal1 : Nat
  u32PllInternal4 : Nat
  WlanRx1 : Nat
  WlanRx2 : Nat
  WlanRx3 : Nat
  WlanTx1 : Nat
  WlanTx2 : Nat
  WlanTx3 : Nat
deriving Repr

def NUM_CHANNELS : Nat := 14
def NUM_FREQS : Nat := 84
def PLL_MAGIC_NUMBER : Nat := 0x12345675

/-- Little-endian byte serialization of one 32-bit word. -/
def word_bytes (w : Nat) : List Nat :=
  [w % 256, w / 256 % 256, w / 65536 % 256, w / 16777216 % 256]

/-- Byte serialization of one tstrChannelParm, fields in memory order
(eight packed uint32_t fields, no padding). -/
def chan_parm_bytes (p : tstrChannelParm) : List Nat :=
  word_bytes p.u32PllInternal1 ++ word_bytes p.u32PllInternal4 ++
  word_bytes p.WlanRx1 ++ word_bytes p.WlanRx2 ++ word_bytes p.WlanRx3 ++
  word_bytes p.WlanTx1 ++ word_bytes p.WlanTx2 ++ word_bytes p.WlanTx3

/-- Byte layout produced by winc3400_pll_table_build (winc_cloner.c lines
504-603): magic pair (PLL_MAGIC_NUMBER then the raw freqOffset echo), then
the NUM_CHANNELS channel parameter structs, then the NUM_FREQS + 1 frequency
words.  The numeric values of the channel and frequency words are computed
in the source with double-precision arithmetic; they are abstracted here by
the functions chn and frq, so every statement below about the layout holds
for the actual computed values in particular. -/
def winc3400_pll_table_build (chn : Nat → tstrChannelParm) (frq : Nat → Nat)
    (freqOffset : Nat) : List Nat :=
  word_bytes PLL_MAGIC_NUMBER ++ word_bytes freqOffset ++
  ((List.range NUM_CHANNELS).map (fun ch => chan_parm_bytes (chn ch))).flatten ++
  ((List.range (NUM_FREQS + 1)).map (fun i => word_bytes (frq i))).flatten

-- ---------------------------------------------------------------------------
-- Medium model and per-sector primitives

/-- The Medium: sector contents indexed by (sector-aligned) byte address. -/
def Medium : Type := Nat → List Nat

/-- Replace the sector stored at address a. -/
def setSector (m : Medium) (a : Nat) (v : List Nat) : Medium :=
  fun x => if x = a then v else m x

/-- A sector as left by spi_flash_erase (NOR flash erases to 0xff). -/
def erasedSector (fm : FlashMap) : List Nat :=
  List.replicate fm.sectorSz 255

/-- One Medium primitive invocation (successful or not), by address. -/
inductive MediumOp where
  | read (addr : Nat)
  | erase (addr : Nat)
  | write (addr : Nat)
deriving DecidableEq, Repr

/-- Success oracles for the spi_flash primitives, describing one
execution: whether the call at a given address succeeds. -/
structure SpiEnv where
  readOk : Nat → Bool
  eraseOk : Nat → Bool
  writeOk : Nat → Bool

/-- The all-successful execution environment. -/
def allOk : SpiEnv := ⟨fun _ => true, fun _ => true, fun _ => true⟩

/-- Shallow embedding of buffers_are_equal (winc_cloner.c lines 495-502):
byte-compare the first n_bytes entries of two buffers. -/
def buffers_are_equal (buf_a buf_b : List Nat) (n_bytes : Nat) : Bool :=
  (List.range n_bytes).all (fun i => buf_a.getD i 0 == buf_b.getD i 0)

/-- Shallow embedding of winc_sector_read (winc_cloner.c lines 284-301):
alignment check, then spi_flash_read of one full sector.  Returns the
result code, the bytes read (meaningful only on SECTOR_OKAY) and the trace
of Medium primitive invocations. -/
def winc_sector_read (fm : FlashMap) (env : SpiEnv) (m : Medium)
    (src_addr : Nat) : sector_result_t × List Nat × List MediumOp :=
  if src_addr % fm.sectorSz ≠ 0 then
    (sector_result_t.SECTOR_ERROR, [], [])
  else if env.readOk src_addr = false then
    (sector_result_t.SECTOR_ERROR, [], [MediumOp.read src_addr])
  else
    (sector_result_t.SECTOR_OKAY, m src_addr, [MediumOp.read src_addr])

/-- Shallow embedding of winc_sector_write (winc_cloner.c lines 303-347):
alignment check; read the current sector; if it byte-equals src return
SECTOR_EQUAL without touching the Medium; otherwise erase then write.
Returns the result code, the new Medium and the invocation trace. -/
def winc_sector_write (fm : FlashMap) (env : SpiEnv) (m : Medium)
    (src : List Nat) (dst_addr : Nat) :
    sector_result_t × Medium × List MediumOp :=
  if dst_addr % fm.sectorSz ≠ 0 then
    (sector_result_t.SECTOR_ERROR, m, [])
  else if env.readOk dst_addr = false then
    (sector_result_t.SECTOR_ERROR, m, [MediumOp.read dst_addr])
  else if buffers_are_equal src (m dst_addr) fm.sectorSz then
    -- buffers are equal: return immediately
    (sector_result_t.SECTOR_EQUAL, m, [MediumOp.read dst_addr])
  else if env.eraseOk dst_addr = false then
    (sector_result_t.SECTOR_ERROR, m,
      [MediumOp.read dst_addr, MediumOp.erase dst_addr])
  else if env.writeOk dst_addr = false then
    (sector_result_t.SECTOR_ERROR, setSector m dst_addr (erasedSector fm),
      [MediumOp.read dst_addr, MediumOp.erase dst_addr, MediumOp.write dst_addr])
  else
    (sector_result_t.SECTOR_DIFFER, setSector m dst_addr src,
      [MediumOp.read dst_addr, MediumOp.erase dst_addr, MediumOp.write dst_addr])

-- ---------------------------------------------------------------------------
-- Container model

/-- The Container opened for reading: its bytes and the current position. -/
structure Container where
  bytes : List Nat
  pos : Nat

/-- Shallow embedding of a successful SYS_FS_FileRead of n bytes into buf:
returns (count actually read, new buffer contents, new container state).
A short read (fewer than n bytes available, down to zero) returns the
available count; bytes of buf beyond the count keep their old value. -/
def fileRead (c : Container) (buf : List Nat) (n : Nat) :
    Nat × List Nat × Container :=
  let r := min n (c.bytes.length - c.pos)
  (r, (c.bytes.drop c.pos).take r ++ buf.drop r, ⟨c.bytes, c.pos + r⟩)

-- ---------------------------------------------------------------------------
-- update and compare loops

/-- Output of one update_loop run: overall result, final Medium, final
contents of the transfer buffer s_xfer_buf, Medium invocation trace, and
the per-chunk result codes in chunk order. -/
structure UpdateOut where
  ok : Bool
  m : Medium
  buf : List Nat
  ops : List MediumOp
  results : List sector_result_t

/-- Shallow embedding of update_loop (winc_cloner.c lines 406-455).  The
while loop is driven by n_bytes, which decreases by to_xfer ≥ 1 on every
iteration; fuel bounds the number of iterations (fuel ≥ n_bytes always
suffices) and makes the recursion structural.  fileFail gives, per
iteration index, whether SYS_FS_FileRead returns a negative value (its
error case); iter counts the iterations.  Chunks whose destination address
lies in [pllOff, pllOff + configTotalSz) are skipped before any Medium
access, mirroring lines 424-427. -/
def update_loop (fm : FlashMap) (env : SpiEnv) (fileFail : Nat → Bool) :
    Nat → Nat → Medium → Container → List Nat → Nat → Nat → UpdateOut
  | 0, _, m, _, buf, _, _ => ⟨true, m, buf, [], []⟩
  | fuel + 1, iter, m, c, buf, dst_addr, n_bytes =>
    if n_bytes = 0 then ⟨true, m, buf, [], []⟩
    else
      let to_xfer := min n_bytes fm.sectorSz
      if fileFail iter then
        -- SYS_FS_FileRead returned a negative value: file read failed
        ⟨false, m, buf, [], []⟩
      else
        let fr := fileRead c buf to_xfer
        let buf' := fr.2.1
        let c' := fr.2.2
        let step :=
          if fm.pllOff ≤ dst_addr ∧ dst_addr < fm.pllOff + fm.configTotalSz then
            -- do not overwrite PLL and GAIN settings
            (sector_result_t.SECTOR_SKIPPED, m, ([] : List MediumOp))
          else
            winc_sector_write fm env m buf' dst_addr
        if step.1 = sector_result_t.SECTOR_ERROR then
          ⟨false, step.2.1, buf', step.2.2, [step.1]⟩
        else
          let rest := update_loop fm env fileFail fuel (iter + 1) step.2.1 c'
              buf' (dst_addr + to_xfer) (n_bytes - to_xfer)
          ⟨rest.ok, rest.m, rest.buf, step.2.2 ++ rest.ops, step.1 :: rest.results⟩

/-- Output of one compare_loop run: overall result, Medium invocation
trace, and the per-chunk comparison outcomes in chunk order. -/
structure CompareOut where
  ok : Bool
  buf : List Nat
  ops : List MediumOp
  results : List Bool

/-- Shallow embedding of compare_loop (winc_cloner.c lines 457-493),
with the same fuel discipline as update_loop.  Each iteration reads a
chunk from the file into s_xfer_buf, reads the corresponding full sector
from the Medium into s_xfer_buf2, and compares the first to_xfer bytes. -/
def compare_loop (fm : FlashMap) (env : SpiEnv) (fileFail : Nat → Bool) :
    Nat → Nat → Medium → Container → List Nat → Nat → Nat → CompareOut
  | 0, _, _, _, buf, _, _ => ⟨true, buf, [], []⟩
  | fuel + 1, iter, m, c, buf, dst_addr, n_bytes =>
    if n_bytes = 0 then ⟨true, buf, [], []⟩
    else
      let to_xfer := min n_bytes fm.sectorSz
      if fileFail iter then
        -- SYS_FS_FileRead returned a negative value: file read failed
        ⟨false, buf, [], []⟩
      else
        let fr := fileRead c buf to_xfer
        let buf' := fr.2.1
        let c' := fr.2.2
        let sr := winc_sector_read fm env m dst_addr
        if sr.1 ≠ sector_result_t.SECTOR_OKAY then
          ⟨false, buf', sr.2.2, []⟩
        else
          let eq := buffers_are_equal buf' sr.2.1 to_xfer
          let rest := compare_loop fm env fileFail fuel (iter + 1) m c'
              buf' (dst_addr + to_xfer) (n_bytes - to_xfer)
          ⟨rest.ok, rest.buf, sr.2.2 ++ rest.ops, eq :: rest.results⟩

/-- Number of chunks processed by a complete loop pass over n bytes with
sector size s: the while loop runs ceil(n / s) times. -/
def numChunks (s n : Nat) : Nat := (n + s - 1) / s

/-- One update pass exactly as winc_cloner_update performs it: Medium
address 0, container position 0, fault-free primitives, fuel n (the loop
runs at most n iterations since each consumes at least one byte).  The
transfer buffer s_xfer_buf is a module-level array, so a second pass
starts with the buffer contents the first pass left behind. -/
def update_once (fm : FlashMap) (m : Medium) (bytes buf : List Nat)
    (n : Nat) : UpdateOut :=
  update_loop fm allOk (fun _ => false) n 0 m ⟨bytes, 0⟩ buf 0 n

-- ---------------------------------------------------------------------------
-- Helper lemmas about the loops

theorem update_loop_zero (fm : FlashMap) (env : SpiEnv) (ff : Nat → Bool)
    (fuel iter : Nat) (m : Medium) (c : Container) (buf : List Nat)
    (dst : Nat) :
    update_loop fm env ff fuel iter m c buf dst 0 = ⟨true, m, buf, [], []⟩ := by
  cases fuel <;> rfl

theorem compare_loop_zero (fm : FlashMap) (env : SpiEnv) (ff : Nat → Bool)
    (fuel iter : Nat) (m : Medium) (c : Container) (buf : List Nat)
    (dst : Nat) :
    compare_loop fm env ff fuel iter m c buf dst 0 = ⟨true, buf, [], []⟩ := by
  cases fuel <;> rfl

theorem numChunks_zero (s : Nat) (hs : 0 < s) : numChunks s 0 = 0 := by
  unfold numChunks
  exact Nat.div_eq_of_lt (by omega)

theorem numChunks_pos (s n : Nat) (hs : 0 < s) (hn : 0 < n) :
    0 < numChunks s n := by
  unfold numChunks
  have h : 1 * s ≤ n + s - 1 := by omega
  exact Nat.lt_of_lt_of_le Nat.zero_lt_one ((Nat.le_div_iff_mul_le hs).mpr h)

theorem numChunks_small (s n : Nat) (hs : 0 < s) (hn : 0 < n) (hle : n ≤ s) :
    numChunks s n = 1 := by
  unfold numChunks
  have h1 : n + s - 1 = (n - 1) + s := by omega
  rw [h1, Nat.add_div_right _ hs, Nat.div_eq_of_lt (by omega)]

theorem numChunks_step (s n : Nat) (hs : 0 < s) (hlt : s < n) :
    numChunks s n = numChunks s (n - s) + 1 := by
  unfold numChunks
  have h1 : n + s - 1 = ((n - s) + s - 1) + s := by omega
  rw [h1, Nat.add_div_right _ hs]

theorem drop_congr_of_le {l1 l2 : List Nat} {j k : Nat} (h : j ≤ k)
    (hd : l1.drop j = l2.drop j) : l1.drop k = l2.drop k := by
  have h2 : l1.drop k = (l1.drop j).drop (k - j) := by
    rw [List.drop_drop]
    congr 1
    omega
  have h3 : l2.drop k = (l2.drop j).drop (k - j) := by
    rw [List.drop_drop]
    congr 1
    omega
  rw [h2, h3, hd]

theorem buffers_are_equal_refl (a : List Nat) (n : Nat) :
    buffers_are_equal a a n = true := by
  simp [buffers_are_equal]

/-- Every Medium primitive invoked by winc_sector_write targets the
destination address. -/
theorem winc_sector_write_ops (fm : FlashMap) (env : SpiEnv) (m : Medium)
    (src : List Nat) (dst : Nat) :
    ∀ op ∈ (winc_sector_write fm env m src dst).2.2,
      op = MediumOp.read dst ∨ op = MediumOp.erase dst ∨
        op = MediumOp.write dst := by
  intro op hop
  unfold winc_sector_write at hop
  repeat' split at hop
  all_goals simp at hop
  all_goals tauto

/-- A sector-aligned chunk outside a sector-aligned region is entirely
disjoint from it. -/
theorem sector_interval_disjoint {s a p t x : Nat}
    (hsa : s ∣ a) (hsP : s ∣ p) (hsT : s ∣ t)
    (hnot : ¬(p ≤ a ∧ a < p + t)) (h1 : a ≤ x) (h2 : x < a + s) :
    ¬(p ≤ x ∧ x < p + t) := by
  rintro ⟨hPx, hxPT⟩
  obtain ⟨qa, rfl⟩ := hsa
  obtain ⟨qp, rfl⟩ := hsP
  obtain ⟨qt, rfl⟩ := hsT
  apply hnot
  constructor
  · have hlt : s * qp < s * (qa + 1) := by
      calc s * qp ≤ x := hPx
      _ < s * qa + s := h2
      _ = s * (qa + 1) := by ring
    have hq : qp < qa + 1 := Nat.lt_of_mul_lt_mul_left hlt
    exact Nat.mul_le_mul_left s (by omega)
  · have hlt : s * qa < s * (qp + qt) := by
      calc s * qa ≤ x := h1
      _ < s * qp + s * qt := hxPT
      _ = s * (qp + qt) := by ring
    have hq : qa < qp + qt := Nat.lt_of_mul_lt_mul_left hlt
    calc s * qa < s * (qp + qt) := hlt
    _ = s * qp + s * qt := by ring

/-- winc_sector_write leaves every other sector of the Medium unchanged. -/
theorem winc_sector_write_m_other (fm : FlashMap) (env : SpiEnv) (m : Medium)
    (src : List Nat) (dst a : Nat) (ha : a ≠ dst) :
    (winc_sector_write fm env m src dst).2.1 a = m a := by
  unfold winc_sector_write
  repeat' split
  all_goals simp [setSector, ha]

/-- update_loop never modifies the Medium below its starting address. -/
theorem update_loop_m_lower (fm : FlashMap) (env : SpiEnv) (ff : Nat → Bool) :
    ∀ (fuel iter : Nat) (m : Medium) (c : Container) (buf : List Nat)
      (dst n a : Nat), a < dst →
      (update_loop fm env ff fuel iter m c buf dst n).m a = m a := by
  intro fuel
  induction fuel with
  | zero => intro iter m c buf dst n a ha; rfl
  | succ fuel ih =>
    intro iter m c buf dst n a ha
    by_cases hn : n = 0
    · subst hn; rw [update_loop_zero]
    · simp only [update_loop, if_neg hn]
      by_cases hf : ff iter
      · simp [hf]
      · simp only [hf, Bool.false_eq_true, if_false]
        by_cases hprot : fm.pllOff ≤ dst ∧ dst < fm.pllOff + fm.configTotalSz
        · simp only [if_pos hprot]
          simp only [reduceCtorEq, if_false]
          rw [ih]
          omega
        · simp only [if_neg hprot]
          split
          · exact winc_sector_write_m_other fm env m _ dst a (by omega)
          · rw [ih]
            · exact winc_sector_write_m_other fm env m _ dst a (by omega)
            · omega

/-- A fileRead leaves the transfer buffer unchanged from the byte count
actually read onward. -/
theorem fileRead_buf_drop (bytes : List Nat) (pos : Nat) (buf : List Nat)
    (t : Nat) :
    ((fileRead ⟨bytes, pos⟩ buf t).2.1).drop (min t (bytes.length - pos))
      = buf.drop (min t (bytes.length - pos)) := by
  simp only [fileRead]
  have hlen : ((bytes.drop pos).take (min t (bytes.length - pos))).length
      = min t (bytes.length - pos) := by
    simp only [List.length_take, List.length_drop]
    omega
  exact List.drop_left' hlen

/-- The transfer buffer positions at or beyond the first chunk byte count
are never overwritten by an update_loop pass: every later chunk reads at
most as many container bytes as the first. -/
theorem update_loop_buf_drop (fm : FlashMap) (env : SpiEnv) (ff : Nat → Bool) :
    ∀ (fuel iter : Nat) (m : Medium) (bytes : List Nat) (pos : Nat)
      (buf : List Nat) (dst n : Nat),
      ((update_loop fm env ff fuel iter m ⟨bytes, pos⟩ buf dst n).buf).drop
          (min (min n fm.sectorSz) (bytes.length - pos))
        = buf.drop (min (min n fm.sectorSz) (bytes.length - pos)) := by
  intro fuel
  induction fuel with
  | zero => intro iter m bytes pos buf dst n; rfl
  | succ fuel ih =>
    intro iter m bytes pos buf dst n
    by_cases hn : n = 0
    · subst hn
      rw [update_loop_zero]
    · have h2 := fileRead_buf_drop bytes pos buf (min n fm.sectorSz)
      simp only [fileRead] at h2
      have hrec : ∀ (X : Medium),
          ((update_loop fm env ff fuel (iter + 1) X
            ⟨bytes, pos + min (min n fm.sectorSz) (bytes.length - pos)⟩
            ((bytes.drop pos).take (min (min n fm.sectorSz)
              (bytes.length - pos)) ++
              buf.drop (min (min n fm.sectorSz) (bytes.length - pos)))
            (dst + min n fm.sectorSz) (n - min n fm.sectorSz)).buf).drop
              (min (min n fm.sectorSz) (bytes.length - pos))
          = buf.drop (min (min n fm.sectorSz) (bytes.length - pos)) := by
        intro X
        have hIH := ih (iter + 1) X bytes
          (pos + min (min n fm.sectorSz) (bytes.length - pos))
          ((bytes.drop pos).take (min (min n fm.sectorSz)
            (bytes.length - pos)) ++
            buf.drop (min (min n fm.sectorSz) (bytes.length - pos)))
          (dst + min n fm.sectorSz) (n - min n fm.sectorSz)
        have hb' : min (min (n - min n fm.sectorSz) fm.sectorSz)
            (bytes.length - (pos + min (min n fm.sectorSz)
              (bytes.length - pos)))
            ≤ min (min n fm.sectorSz) (bytes.length - pos) := by
          omega
        have h1 := drop_congr_of_le hb' hIH
        rw [h1, h2]
      simp only [update_loop, if_neg hn, fileRead]
      by_cases hf : ff iter
      · simp only [if_pos hf]
      · simp only [hf, Bool.false_eq_true, if_false]
        split
        · simp only [reduceCtorEq, if_false]
          exact hrec _
        · split
          · exact h2
          · exact hrec _

theorem allOk_readOk (x : Nat) : allOk.readOk x = true := rfl

theorem allOk_eraseOk (x : Nat) : allOk.eraseOk x = true := rfl

theorem allOk_writeOk (x : Nat) : allOk.writeOk x = true := rfl

/-- Idempotence induction: a second pass over the Medium state left by a
fault-free first pass, started with any transfer buffer that agrees with
the first buffer beyond the first chunk read count, succeeds, changes
nothing, reports only EQUAL or SKIPPED, and performs reads only. -/
theorem update_loop_idem_aux (fm : FlashMap) (hs : 0 < fm.sectorSz) :
    ∀ (fuel iter : Nat) (m : Medium) (bytes : List Nat) (pos : Nat)
      (buf bufB : List Nat) (dst n : Nat),
      n ≤ fuel → (n ≠ 0 → fm.sectorSz ∣ dst) →
      bufB.drop (min (min n fm.sectorSz) (bytes.length - pos))
        = buf.drop (min (min n fm.sectorSz) (bytes.length - pos)) →
      (update_loop fm allOk (fun _ => false) fuel iter m
        ⟨bytes, pos⟩ buf dst n).ok = true ∧
      (update_loop fm allOk (fun _ => false) fuel iter
        (update_loop fm allOk (fun _ => false) fuel iter m
          ⟨bytes, pos⟩ buf dst n).m
        ⟨bytes, pos⟩ bufB dst n).ok = true ∧
      (update_loop fm allOk (fun _ => false) fuel iter
        (update_loop fm allOk (fun _ => false) fuel iter m
          ⟨bytes, pos⟩ buf dst n).m
        ⟨bytes, pos⟩ bufB dst n).m
        = (update_loop fm allOk (fun _ => false) fuel iter m
            ⟨bytes, pos⟩ buf dst n).m ∧
      (∀ res ∈ (update_loop fm allOk (fun _ => false) fuel iter
        (update_loop fm allOk (fun _ => false) fuel iter m
          ⟨bytes, pos⟩ buf dst n).m
        ⟨bytes, pos⟩ bufB dst n).results,
        res = sector_result_t.SECTOR_EQUAL ∨
          res = sector_result_t.SECTOR_SKIPPED) ∧
      (∀ op ∈ (update_loop fm allOk (fun _ => false) fuel iter
        (update_loop fm allOk (fun _ => false) fuel iter m
          ⟨bytes, pos⟩ buf dst n).m
        ⟨bytes, pos⟩ bufB dst n).ops, ∃ a, op = MediumOp.read a) := by
  intro fuel
  induction fuel with
  | zero =>
    intro iter m bytes pos buf bufB dst n hfuel hdvd hdrop
    simp [update_loop]
  | succ fuel ih =>
    intro iter m bytes pos buf bufB dst n hfuel hdvd hdrop
    by_cases hn : n = 0
    · subst hn
      simp [update_loop_zero]
    · have hal : dst % fm.sectorSz = 0 := Nat.mod_eq_zero_of_dvd (hdvd hn)
      have hfuel' : n - min n fm.sectorSz ≤ fuel := by omega
      have hdvd' : (n - min n fm.sectorSz ≠ 0 →
          fm.sectorSz ∣ dst + min n fm.sectorSz) := by
        intro hne
        have ht : min n fm.sectorSz = fm.sectorSz := by omega
        rw [ht]
        exact dvd_add (hdvd hn) (dvd_refl _)
      simp only [update_loop, if_neg hn, Bool.false_eq_true, if_false, fileRead]
      set r := min (min n fm.sectorSz) (bytes.length - pos) with hrdef
      have hbuf : (bytes.drop pos).take r ++ bufB.drop r
          = (bytes.drop pos).take r ++ buf.drop r := by
        rw [hdrop]
      rw [hbuf]
      by_cases hprot : fm.pllOff ≤ dst ∧ dst < fm.pllOff + fm.configTotalSz
      · simp only [if_pos hprot, reduceCtorEq, if_false]
        have hIH := ih (iter + 1) m bytes (pos + r)
          ((bytes.drop pos).take r ++ buf.drop r)
          ((bytes.drop pos).take r ++ buf.drop r)
          (dst + min n fm.sectorSz) (n - min n fm.sectorSz)
          hfuel' hdvd' rfl
        refine ⟨hIH.1, hIH.2.1, hIH.2.2.1, ?_, ?_⟩
        · intro res hres
          rcases List.mem_cons.mp hres with h | h
          · right
            exact h
          · exact hIH.2.2.2.1 res h
        · intro op hop
          simp only [List.nil_append] at hop
          exact hIH.2.2.2.2 op hop
      · simp only [if_neg hprot]
        simp only [winc_sector_write, allOk_readOk, allOk_eraseOk,
          allOk_writeOk, hal, ne_eq, not_true_eq_false,
          not_false_eq_true, if_true, if_false, Bool.true_eq_false,
          reduceCtorEq, eq_self_iff_true]
        by_cases heq : buffers_are_equal
            ((bytes.drop pos).take r ++ buf.drop r) (m dst) fm.sectorSz
        · simp only [heq, if_true, reduceCtorEq, if_false]
          have hmlow : (update_loop fm allOk (fun _ => false) fuel (iter + 1)
              m ⟨bytes, pos + r⟩
              ((bytes.drop pos).take r ++ buf.drop r)
              (dst + min n fm.sectorSz) (n - min n fm.sectorSz)).m dst
              = m dst :=
            update_loop_m_lower fm allOk _ fuel (iter + 1) m _ _ _ _ dst
              (by omega)
          rw [hmlow]
          simp only [heq, if_true, reduceCtorEq, if_false]
          have hIH := ih (iter + 1) m bytes (pos + r)
            ((bytes.drop pos).take r ++ buf.drop r)
            ((bytes.drop pos).take r ++ buf.drop r)
            (dst + min n fm.sectorSz) (n - min n fm.sectorSz)
            hfuel' hdvd' rfl
          refine ⟨hIH.1, hIH.2.1, hIH.2.2.1, ?_, ?_⟩
          · intro res hres
            rcases List.mem_cons.mp hres with h | h
            · left
              exact h
            · exact hIH.2.2.2.1 res h
          · intro op hop
            rcases List.mem_append.mp hop with h | h
            · exact ⟨dst, by simpa using h⟩
            · exact hIH.2.2.2.2 op h
        · have heq2 : buffers_are_equal
              ((bytes.drop pos).take r ++ buf.drop r) (m dst) fm.sectorSz
              = false := by
            simpa using heq
          simp only [heq2, Bool.false_eq_true, if_false, reduceCtorEq]
          have hmlow : (update_loop fm allOk (fun _ => false) fuel (iter + 1)
              (setSector m dst ((bytes.drop pos).take r ++ buf.drop r))
              ⟨bytes, pos + r⟩
              ((bytes.drop pos).take r ++ buf.drop r)
              (dst + min n fm.sectorSz) (n - min n fm.sectorSz)).m dst
              = (bytes.drop pos).take r ++ buf.drop r := by
            rw [update_loop_m_lower fm allOk _ fuel (iter + 1) _ _ _ _ _ dst
              (by omega)]
            simp [setSector]
          rw [hmlow]
          simp only [buffers_are_equal_refl, if_true, reduceCtorEq, if_false]
          have hIH := ih (iter + 1)
            (setSector m dst ((bytes.drop pos).take r ++ buf.drop r))
            bytes (pos + r)
            ((bytes.drop pos).take r ++ buf.drop r)
            ((bytes.drop pos).take r ++ buf.drop r)
            (dst + min n fm.sectorSz) (n - min n fm.sectorSz)
            hfuel' hdvd' rfl
          refine ⟨hIH.1, hIH.2.1, hIH.2.2.1, ?_, ?_⟩
          · intro res hres
            rcases List.mem_cons.mp hres with h | h
            · left
              exact h
            · exact hIH.2.2.2.1 res h
          · intro op hop
            rcases List.mem_append.mp hop with h | h
            · exact ⟨dst, by simpa using h⟩
            · exact hIH.2.2.2.2 op h


-- ---------------------------------------------------------------------------
-- Theorems

/-- C1: the claim says a failure of m2m_wifi_download_mode makes the
acquiring operation fail and the next open_winc call retry the primitive.
The code does neither: evaluating open_winc at the failing input (primitive
fails, flag clear) shows it sets s_winc_is_opened to true and returns true,
so the operation proceeds as if the session opened, and every later call
returns the cached true without invoking the primitive again. -/
theorem C1_open_winc_failure_cached_as_success :
    open_winc false false = (true, true, true) ∧
    open_winc false true = (true, true, false) ∧
    open_winc true true = (true, true, false) := by decide

/-- C9: across any sequence of engine operations after winc_cloner_init
(flag initialized to false), m2m_wifi_download_mode is invoked at most once
in total, whatever results the primitive would return, and every session
acquisition with the flag already set returns the cached flag without
invoking the primitive. -/
theorem C9_download_mode_at_most_once :
    (∀ ds : List Bool, session_invocations false ds ≤ 1) ∧
    (∀ d : Bool, open_winc d true = (true, true, false)) := by
  constructor
  · intro ds
    have h : ∀ es : List Bool, session_invocations true es = 0 := by
      intro es
      induction es with
      | nil => rfl
      | cons e es ih => simp [session_invocations, open_winc, ih]
    cases ds with
    | nil => simp [session_invocations]
    | cons d ds => cases d <;> simp [session_invocations, open_winc, h]
  · intro d
    rfl

/-- C8: for any session-acquisition outcome, any file-open outcome and any
inner-loop outcome (extract_loop, update_loop or compare_loop, succeeding
or failing), if the container file was opened then it is closed before
cloner_aux returns: the event trace is exactly open followed by close. -/
theorem C8_container_closed_on_every_path :
    ∀ (w o i : Bool),
      FsEvent.fileOpened ∈ (cloner_aux w o i).2 →
      (cloner_aux w o i).2 = [FsEvent.fileOpened, FsEvent.fileClosed] := by
  intro w o i h
  cases w <;> cases o <;> simp_all [cloner_aux]

/-- Witness for C8 at a concrete input: a failing update run that did open
the container still closes it. -/
theorem C8_witness :
    FsEvent.fileOpened ∈ (cloner_aux true true false).2 ∧
    (cloner_aux true true false).2 = [FsEvent.fileOpened, FsEvent.fileClosed] :=
  ⟨by decide, C8_container_closed_on_every_path true true false (by decide)⟩

/-- C5 counterexample: the claim says every index k ≥ 2 uses the frequency
3840 + 2k MHz; the source increments lo from the overridden value 4802, so
index 2 uses 4804.0 MHz, not 3844.0 MHz. -/
theorem C5_counterexample :
    freqLo 2 = 4804 ∧ freqLo 2 ≠ 3840 + 2 * 2 := by decide

/-- C5 (amended): index 0 uses 3840.0 MHz, index 1 uses 4802.0 MHz, and
every index k ≥ 1 uses 4800 + 2k MHz (the 2 MHz steps continue from the
overridden value 4802, not from the initial 3840). -/
theorem C5_freq_sequence :
    freqLo 0 = 3840 ∧ freqLo 1 = 4802 ∧
    ∀ k : Nat, 1 ≤ k → freqLo k = 4800 + 2 * k := by
  refine ⟨rfl, rfl, ?_⟩
  intro k hk
  induction k with
  | zero => omega
  | succ n ih =>
    cases n with
    | zero => rfl
    | succ m =>
      have h1 : freqLo (m + 1 + 1) = freqLo (m + 1) + 2 := rfl
      have h2 := ih (by omega)
      omega

/-- Witness for C5 (amended) at the concrete index 3. -/
theorem C5_witness : 1 ≤ 3 ∧ freqLo 3 = 4800 + 2 * 3 :=
  ⟨by decide, C5_freq_sequence.2.2 3 (by decide)⟩

set_option maxRecDepth 4000 in
/-- C3 counterexample: the spec states the synthesized table length is 456
bytes; evaluating the layout at any concrete word values gives 796 bytes
(8 + 14*8*4 + 85*4 = 796, not 456). -/
theorem C3_counterexample :
    (winc3400_pll_table_build (fun _ => ⟨0, 0, 0, 0, 0, 0, 0, 0⟩)
      (fun _ => 0) 0).length ≠ 456 := by decide

theorem flatten_map_range_length (f : Nat → List Nat) (c : Nat)
    (h : ∀ i, (f i).length = c) :
    ∀ n, (((List.range n).map f).flatten).length = c * n := by
  intro n
  induction n with
  | zero => simp
  | succ k ih =>
    rw [List.range_succ]
    simp only [List.map_append, List.flatten_append, List.length_append, ih,
      List.map_cons, List.map_nil, List.flatten_cons, List.flatten_nil,
      List.append_nil, h]
    ring

/-- C3 (amended): for every calibration offset and all channel/frequency
word values (hence for the values the source computes), the table built by
winc3400_pll_table_build is exactly 8 + 14*8*4 + 85*4 = 796 bytes long,
independent of the offset. -/
theorem C3_table_length :
    ∀ (chn : Nat → tstrChannelParm) (frq : Nat → Nat) (freqOffset : Nat),
      (winc3400_pll_table_build chn frq freqOffset).length
        = 8 + 14 * 8 * 4 + 85 * 4 := by
  intro chn frq freqOffset
  have hc : ∀ i, (chan_parm_bytes (chn i)).length = 32 := by
    intro i
    simp [chan_parm_bytes, word_bytes]
  have hf : ∀ i, (word_bytes (frq i)).length = 4 := fun i => rfl
  have h1 := flatten_map_range_length (fun ch => chan_parm_bytes (chn ch)) 32 hc
    NUM_CHANNELS
  have h2 := flatten_map_range_length (fun i => word_bytes (frq i)) 4 hf
    (NUM_FREQS + 1)
  rw [winc3400_pll_table_build]
  simp only [List.length_append, h1, h2]
  norm_num [word_bytes, NUM_CHANNELS, NUM_FREQS]

/-- Per-chunk and per-invocation protected-region discipline of
update_loop, generalized over the starting address for the induction. -/
theorem update_loop_protected_aux (fm : FlashMap) (env : SpiEnv)
    (ff : Nat → Bool) (hP : fm.sectorSz ∣ fm.pllOff)
    (hT : fm.sectorSz ∣ fm.configTotalSz) :
    ∀ (fuel iter : Nat) (m : Medium) (c : Container) (buf : List Nat)
      (dst n : Nat), (n ≠ 0 → fm.sectorSz ∣ dst) →
      (∀ a, (MediumOp.erase a ∈ (update_loop fm env ff fuel iter m c buf dst n).ops ∨
             MediumOp.write a ∈ (update_loop fm env ff fuel iter m c buf dst n).ops) →
        ∀ x, a ≤ x → x < a + fm.sectorSz →
          ¬(fm.pllOff ≤ x ∧ x < fm.pllOff + fm.configTotalSz)) ∧
      (∀ i r, (update_loop fm env ff fuel iter m c buf dst n).results.get? i = some r →
        fm.pllOff ≤ dst + i * fm.sectorSz ∧
          dst + i * fm.sectorSz < fm.pllOff + fm.configTotalSz →
        r = sector_result_t.SECTOR_SKIPPED) := by
  intro fuel
  induction fuel with
  | zero =>
    intro iter m c buf dst n hdvd
    constructor
    · intro a ha
      simp [update_loop] at ha
    · intro i r hr
      simp [update_loop] at hr
  | succ fuel ih =>
    intro iter m c buf dst n hdvd
    by_cases hn : n = 0
    · subst hn
      rw [update_loop_zero]
      constructor
      · intro a ha
        simp at ha
      · intro i r hr
        simp at hr
    · simp only [update_loop, if_neg hn]
      by_cases hf : ff iter
      · simp only [if_pos hf]
        constructor
        · intro a ha
          simp at ha
        · intro i r hr
          simp at hr
      · simp only [hf, Bool.false_eq_true, if_false]
        have hd' : (n - min n fm.sectorSz ≠ 0 →
            fm.sectorSz ∣ dst + min n fm.sectorSz) := by
          intro hne
          have ht : min n fm.sectorSz = fm.sectorSz := by omega
          rw [ht]
          exact dvd_add (hdvd hn) (dvd_refl _)
        by_cases hprot : fm.pllOff ≤ dst ∧ dst < fm.pllOff + fm.configTotalSz
        · simp only [if_pos hprot, reduceCtorEq, if_false]
          constructor
          · intro a ha
            simp only [List.nil_append] at ha
            exact (ih _ _ _ _ _ _ hd').1 a ha
          · intro i r hr hreg
            cases i with
            | zero =>
              simp only [List.get?_cons_zero, Option.some.injEq] at hr
              exact hr.symm
            | succ i =>
              simp only [List.get?_cons_succ] at hr
              by_cases htlt : min n fm.sectorSz < n
              · have ht : min n fm.sectorSz = fm.sectorSz := by omega
                refine (ih _ _ _ _ _ _ hd').2 i r hr ?_
                have hsm : (i + 1) * fm.sectorSz
                    = i * fm.sectorSz + fm.sectorSz := by ring
                rw [ht]
                constructor <;> omega
              · have h0 : n - min n fm.sectorSz = 0 := by omega
                rw [h0, update_loop_zero] at hr
                exact absurd hr (by simp)
        · simp only [if_neg hprot]
          have hadst : ∀ a : Nat, ∀ src : List Nat,
              (MediumOp.erase a ∈ (winc_sector_write fm env m src dst).2.2 ∨
               MediumOp.write a ∈ (winc_sector_write fm env m src dst).2.2) →
              a = dst := by
            intro a src hmem
            rcases hmem with h1 | h1
            · rcases winc_sector_write_ops fm env m src dst _ h1 with h | h | h
              · exact MediumOp.noConfusion h
              · injection h
              · exact MediumOp.noConfusion h
            · rcases winc_sector_write_ops fm env m src dst _ h1 with h | h | h
              · exact MediumOp.noConfusion h
              · exact MediumOp.noConfusion h
              · injection h
          split
          · constructor
            · intro a ha x hx1 hx2
              have ha2 := hadst a _ ha
              subst ha2
              exact sector_interval_disjoint (hdvd hn) hP hT hprot hx1 hx2
            · intro i r hr hreg
              cases i with
              | zero => exact absurd (by simpa using hreg) hprot
              | succ i =>
                simp only [List.get?_cons_succ, List.get?_nil] at hr
                exact Option.noConfusion hr
          · constructor
            · intro a ha x hx1 hx2
              rcases ha with ha | ha <;> rcases List.mem_append.mp ha with h | h
              · have ha2 := hadst a _ (Or.inl h)
                subst ha2
                exact sector_interval_disjoint (hdvd hn) hP hT hprot hx1 hx2
              · exact (ih _ _ _ _ _ _ hd').1 a (Or.inl h) x hx1 hx2
              · have ha2 := hadst a _ (Or.inr h)
                subst ha2
                exact sector_interval_disjoint (hdvd hn) hP hT hprot hx1 hx2
              · exact (ih _ _ _ _ _ _ hd').1 a (Or.inr h) x hx1 hx2
            · intro i r hr hreg
              cases i with
              | zero => exact absurd (by simpa using hreg) hprot
              | succ i =>
                simp only [List.get?_cons_succ] at hr
                by_cases htlt : min n fm.sectorSz < n
                · have ht : min n fm.sectorSz = fm.sectorSz := by omega
                  refine (ih _ _ _ _ _ _ hd').2 i r hr ?_
                  have hsm : (i + 1) * fm.sectorSz
                      = i * fm.sectorSz + fm.sectorSz := by ring
                  rw [ht]
                  constructor <;> omega
                · have h0 : n - min n fm.sectorSz = 0 := by omega
                  rw [h0, update_loop_zero] at hr
                  exact absurd hr (by simp)

/-- C2: during update, for every container content, execution environment
and Medium, every chunk whose destination address range intersects the
Protected Region [pllOff, pllOff + configTotalSz) gets the per-chunk
outcome SECTOR_SKIPPED, and no erase or write invocation ever touches an
address of that region (the region and the sector size being
sector-aligned, as they are in spi_flash_map.h). -/
theorem C2_update_never_touches_protected_region :
    ∀ (fm : FlashMap) (env : SpiEnv) (ff : Nat → Bool) (m : Medium)
      (bytes buf : List Nat) (n : Nat),
      fm.sectorSz ∣ fm.pllOff → fm.sectorSz ∣ fm.configTotalSz →
      (∀ a, (MediumOp.erase a ∈
              (update_loop fm env ff n 0 m ⟨bytes, 0⟩ buf 0 n).ops ∨
             MediumOp.write a ∈
              (update_loop fm env ff n 0 m ⟨bytes, 0⟩ buf 0 n).ops) →
        ∀ x, a ≤ x → x < a + fm.sectorSz →
          ¬(fm.pllOff ≤ x ∧ x < fm.pllOff + fm.configTotalSz)) ∧
      (∀ i r, (update_loop fm env ff n 0 m ⟨bytes, 0⟩ buf 0 n).results.get? i
          = some r →
        fm.pllOff ≤ i * fm.sectorSz ∧
          i * fm.sectorSz < fm.pllOff + fm.configTotalSz →
        r = sector_result_t.SECTOR_SKIPPED) := by
  intro fm env ff m bytes buf n hP hT
  have h := update_loop_protected_aux fm env ff hP hT n 0 m ⟨bytes, 0⟩ buf 0 n
    (fun _ => dvd_zero _)
  refine ⟨h.1, ?_⟩
  intro i r hr hreg
  exact h.2 i r hr (by simpa using hreg)

/-- Witness for C2 at a concrete input: sector size 4, Protected Region
[8, 12), a container that differs from the Medium everywhere; the run
records SECTOR_SKIPPED for chunk 2 and never erases address 8. -/
theorem C2_witness :
    ((4 : Nat) ∣ 8) ∧ ((4 : Nat) ∣ 4) ∧
    ¬(MediumOp.erase 8 ∈
      (update_loop ⟨4, 8, 4⟩ allOk (fun _ => false) 12 0
        (fun _ => [0, 0, 0, 0]) ⟨List.replicate 12 7, 0⟩
        [0, 0, 0, 0] 0 12).ops) :=
  ⟨by decide, by decide, fun h =>
    (C2_update_never_touches_protected_region ⟨4, 8, 4⟩ allOk (fun _ => false)
      (fun _ => [0, 0, 0, 0]) (List.replicate 12 7) [0, 0, 0, 0] 12
      (by decide) (by decide)).1 8 (Or.inl h) 8 (le_refl 8) (by decide)
      ⟨by decide, by decide⟩⟩

/-- Success of compare_loop depends only on the read oracles, and its
Medium invocation trace is reads only; generalized over the start address
for the induction. -/
theorem compare_loop_aux (fm : FlashMap) (env : SpiEnv) (ff : Nat → Bool)
    (hs : 0 < fm.sectorSz) :
    ∀ (fuel iter : Nat) (m : Medium) (c : Container) (buf : List Nat)
      (dst n : Nat), n ≤ fuel → (n ≠ 0 → fm.sectorSz ∣ dst) →
      (∀ op ∈ (compare_loop fm env ff fuel iter m c buf dst n).ops,
        ∃ a, op = MediumOp.read a) ∧
      ((compare_loop fm env ff fuel iter m c buf dst n).ok = true ↔
        ∀ k, k < numChunks fm.sectorSz n →
          ff (iter + k) = false ∧ env.readOk (dst + k * fm.sectorSz) = true) := by
  intro fuel
  induction fuel with
  | zero =>
    intro iter m c buf dst n hfuel hdvd
    have hn : n = 0 := by omega
    subst hn
    rw [compare_loop_zero]
    constructor
    · intro op hop
      simp at hop
    · simp [numChunks_zero fm.sectorSz hs]
  | succ fuel ih =>
    intro iter m c buf dst n hfuel hdvd
    by_cases hn : n = 0
    · subst hn
      rw [compare_loop_zero]
      constructor
      · intro op hop
        simp at hop
      · simp [numChunks_zero fm.sectorSz hs]
    · simp only [compare_loop, if_neg hn]
      have hpos : 0 < numChunks fm.sectorSz n :=
        numChunks_pos fm.sectorSz n hs (by omega)
      by_cases hf : ff iter
      · simp only [if_pos hf]
        constructor
        · intro op hop
          simp at hop
        · constructor
          · intro h
            exact absurd h (by simp)
          · intro h
            have h0 := (h 0 hpos).1
            rw [Nat.add_zero] at h0
            rw [hf] at h0
            exact Bool.noConfusion h0
      · have hf2 : ff iter = false := by simpa using hf
        simp only [hf, Bool.false_eq_true, if_false]
        have hal : dst % fm.sectorSz = 0 := Nat.mod_eq_zero_of_dvd (hdvd hn)
        simp only [winc_sector_read, hal, ne_eq, not_true_eq_false,
          not_false_eq_true, if_true, if_false, eq_self_iff_true, reduceCtorEq]
        by_cases hr : env.readOk dst
        · simp only [hr, Bool.true_eq_false, reduceCtorEq, if_false,
            eq_self_iff_true, not_true_eq_false, not_false_eq_true, if_true]
          have hfuel' : n - min n fm.sectorSz ≤ fuel := by omega
          have hd' : (n - min n fm.sectorSz ≠ 0 →
              fm.sectorSz ∣ dst + min n fm.sectorSz) := by
            intro hne
            have ht : min n fm.sectorSz = fm.sectorSz := by omega
            rw [ht]
            exact dvd_add (hdvd hn) (dvd_refl _)
          constructor
          · intro op hop
            rcases List.mem_append.mp hop with h1 | h1
            · exact ⟨dst, by simpa using h1⟩
            · exact (ih _ _ _ _ _ _ hfuel' hd').1 op h1
          · by_cases htlt : min n fm.sectorSz < n
            · have ht : min n fm.sectorSz = fm.sectorSz := by omega
              have hSn : fm.sectorSz < n := by omega
              rw [ht] at hfuel' hd' ⊢
              constructor
              · intro hok k hk
                have h' := ((ih _ _ _ _ _ _ hfuel' hd').2).mp hok
                cases k with
                | zero =>
                  rw [Nat.add_zero, Nat.zero_mul, Nat.add_zero]
                  exact ⟨hf2, hr⟩
                | succ k =>
                  rw [numChunks_step fm.sectorSz n hs hSn] at hk
                  have h2 := h' k (by omega)
                  constructor
                  · have he : iter + 1 + k = iter + (k + 1) := by omega
                    rw [← he]
                    exact h2.1
                  · have hsm : (k + 1) * fm.sectorSz
                        = k * fm.sectorSz + fm.sectorSz := by ring
                    have he : dst + (k + 1) * fm.sectorSz
                        = dst + fm.sectorSz + k * fm.sectorSz := by omega
                    rw [he]
                    exact h2.2
              · intro hR
                apply ((ih _ _ _ _ _ _ hfuel' hd').2).mpr
                intro k hk
                have h2 := hR (k + 1) (by
                  rw [numChunks_step fm.sectorSz n hs hSn]
                  omega)
                constructor
                · have he : iter + 1 + k = iter + (k + 1) := by omega
                  rw [he]
                  exact h2.1
                · have hsm : (k + 1) * fm.sectorSz
                      = k * fm.sectorSz + fm.sectorSz := by ring
                  have he : dst + (k + 1) * fm.sectorSz
                      = dst + fm.sectorSz + k * fm.sectorSz := by omega
                  rw [← he]
                  exact h2.2
            · have ht : min n fm.sectorSz = n := by omega
              have h0 : n - min n fm.sectorSz = 0 := by omega
              rw [h0, compare_loop_zero]
              have hnum : numChunks fm.sectorSz n = 1 :=
                numChunks_small fm.sectorSz n hs (by omega) (by omega)
              constructor
              · intro _ k hk
                rw [hnum] at hk
                have hk0 : k = 0 := by omega
                subst hk0
                rw [Nat.add_zero, Nat.zero_mul, Nat.add_zero]
                exact ⟨hf2, hr⟩
              · intro _
                rfl
        · have hr2 : env.readOk dst = false := by simpa using hr
          simp only [hr2, eq_self_iff_true, if_true, reduceCtorEq,
            not_false_eq_true]
          constructor
          · intro op hop
            simp only [List.mem_singleton] at hop
            exact ⟨dst, hop⟩
          · constructor
            · intro h
              exact absurd h (by simp)
            · intro h
              have h0 := (h 0 hpos).2
              rw [Nat.zero_mul, Nat.add_zero] at h0
              rw [h0] at hr
              exact hr rfl

/-- C6: the compare operation never issues a Medium erase or write (every
Medium invocation in its trace is a read), and its aggregate result is
success if and only if no Container-read and no Medium-read error occurred
over the chunks: the right-hand side mentions only the failure oracles,
never the contents, so sectors whose contents differ are reported in the
per-chunk results but cannot make the operation fail. -/
theorem C6_compare_read_only_success_iff :
    ∀ (fm : FlashMap) (env : SpiEnv) (ff : Nat → Bool) (m : Medium)
      (bytes buf : List Nat) (n : Nat), 0 < fm.sectorSz →
      (∀ op ∈ (compare_loop fm env ff n 0 m ⟨bytes, 0⟩ buf 0 n).ops,
        ∃ a, op = MediumOp.read a) ∧
      ((compare_loop fm env ff n 0 m ⟨bytes, 0⟩ buf 0 n).ok = true ↔
        ∀ k, k < numChunks fm.sectorSz n →
          ff k = false ∧ env.readOk (k * fm.sectorSz) = true) := by
  intro fm env ff m bytes buf n hs
  have h := compare_loop_aux fm env ff hs n 0 m ⟨bytes, 0⟩ buf 0 n (le_refl n)
    (fun _ => dvd_zero _)
  refine ⟨h.1, ?_⟩
  rw [h.2]
  constructor
  · intro hh k hk
    simpa using hh k hk
  · intro hh k hk
    simpa using hh k hk

/-- Witness for C6 at a concrete input: two 4-byte sectors whose contents
all differ from the container; with no I/O failures the compare operation
still succeeds. -/
theorem C6_witness :
    (0 : Nat) < 4 ∧
    (compare_loop ⟨4, 16, 4⟩ allOk (fun _ => false) 8 0
      (fun _ => [0, 0, 0, 0]) ⟨List.replicate 8 5, 0⟩
      [0, 0, 0, 0] 0 8).ok = true :=
  ⟨by decide,
    ((C6_compare_read_only_success_iff ⟨4, 16, 4⟩ allOk (fun _ => false)
      (fun _ => [0, 0, 0, 0]) (List.replicate 8 5) [0, 0, 0, 0] 8
      (by decide)).2).mpr (by decide)⟩

/-- C7: for every Medium, container and capacity, a fault-free update
followed immediately by a second update with the same container (running
on the Medium and transfer buffer the first pass left behind) is
idempotent: both passes succeed, the second pass changes no Medium sector,
every per-chunk outcome of the second pass is unchanged (SECTOR_EQUAL) or
skipped (SECTOR_SKIPPED), and the second pass issues reads only — zero
sectors are erased or rewritten. -/
theorem C7_update_idempotent :
    ∀ (fm : FlashMap) (m : Medium) (bytes buf : List Nat) (n : Nat),
      0 < fm.sectorSz →
      (update_once fm m bytes buf n).ok = true ∧
      (update_once fm (update_once fm m bytes buf n).m bytes
        (update_once fm m bytes buf n).buf n).ok = true ∧
      (update_once fm (update_once fm m bytes buf n).m bytes
        (update_once fm m bytes buf n).buf n).m
        = (update_once fm m bytes buf n).m ∧
      (∀ res ∈ (update_once fm (update_once fm m bytes buf n).m bytes
        (update_once fm m bytes buf n).buf n).results,
        res = sector_result_t.SECTOR_EQUAL ∨
          res = sector_result_t.SECTOR_SKIPPED) ∧
      (∀ op ∈ (update_once fm (update_once fm m bytes buf n).m bytes
        (update_once fm m bytes buf n).buf n).ops,
        ∃ a, op = MediumOp.read a) := by
  intro fm m bytes buf n hs
  have hdrop := update_loop_buf_drop fm allOk (fun _ => false) n 0 m bytes 0
    buf 0 n
  exact update_loop_idem_aux fm hs n 0 m bytes 0 buf _ 0 n (le_refl n)
    (fun _ => dvd_zero _) hdrop

/-- Witness for C7 at a concrete input: twelve container bytes over three
4-byte sectors with sector 1 protected; both passes succeed. -/
theorem C7_witness :
    (0 : Nat) < 4 ∧
    (update_once ⟨4, 4, 4⟩ (fun _ => [0, 0, 0, 0]) (List.replicate 12 9)
      [0, 0, 0, 0] 12).ok = true ∧
    (update_once ⟨4, 4, 4⟩
      (update_once ⟨4, 4, 4⟩ (fun _ => [0, 0, 0, 0]) (List.replicate 12 9)
        [0, 0, 0, 0] 12).m (List.replicate 12 9)
      (update_once ⟨4, 4, 4⟩ (fun _ => [0, 0, 0, 0]) (List.replicate 12 9)
        [0, 0, 0, 0] 12).buf 12).ok = true :=
  ⟨by decide,
    (C7_update_idempotent ⟨4, 4, 4⟩ (fun _ => [0, 0, 0, 0])
      (List.replicate 12 9) [0, 0, 0, 0] 12 (by decide)).1,
    (C7_update_idempotent ⟨4, 4, 4⟩ (fun _ => [0, 0, 0, 0])
      (List.replicate 12 9) [0, 0, 0, 0] 12 (by decide)).2.1⟩

/-- C10: in update and compare, a container read is an error exactly when
the read primitive reports a negative value (modelled by the fileFail
oracle): a negative return aborts the pass with failure before recording
any per-chunk outcome or touching the Medium, while a short read — here
the extreme case of zero bytes available, container exhausted — is
treated as success and the chunk is still processed, the sector being
written or compared against whatever bytes already sit in the transfer
buffer. -/
theorem C10_container_read_error_iff_negative :
    ∀ (fm : FlashMap) (env : SpiEnv) (ff : Nat → Bool) (fuel iter : Nat)
      (m : Medium) (c : Container) (buf : List Nat) (dst n : Nat),
      n ≠ 0 →
      (ff iter = true →
        update_loop fm env ff (fuel + 1) iter m c buf dst n
          = ⟨false, m, buf, [], []⟩ ∧
        compare_loop fm env ff (fuel + 1) iter m c buf dst n
          = ⟨false, buf, [], []⟩) ∧
      (ff iter = false → c.bytes.length ≤ c.pos →
        (¬(fm.pllOff ≤ dst ∧ dst < fm.pllOff + fm.configTotalSz) →
          (update_loop fm env ff (fuel + 1) iter m c buf dst n).results.head?
            = some (winc_sector_write fm env m buf dst).1) ∧
        (dst % fm.sectorSz = 0 → env.readOk dst = true →
          (compare_loop fm env ff (fuel + 1) iter m c buf dst n).results.head?
            = some (buffers_are_equal buf (m dst) (min n fm.sectorSz)))) := by
  intro fm env ff fuel iter m c buf dst n hn
  constructor
  · intro h
    constructor <;> simp [update_loop, compare_loop, if_neg hn, h]
  · intro h hle
    have hb : (fileRead c buf (min n fm.sectorSz)).2.1 = buf := by
      simp only [fileRead]
      rw [Nat.sub_eq_zero_of_le hle]
      simp
    constructor
    · intro hprot
      simp only [update_loop, if_neg hn, h, Bool.false_eq_true, if_false,
        hb, if_neg hprot]
      split
      · rfl
      · rfl
    · intro hal hr
      simp only [compare_loop, if_neg hn, h, Bool.false_eq_true, if_false,
        hb, winc_sector_read, hal, ne_eq, not_true_eq_false,
        not_false_eq_true, if_true, if_false, eq_self_iff_true, hr,
        Bool.true_eq_false, reduceCtorEq]
      rfl
/-- Witness for C10 at a concrete input: a 4-byte container already at
end of file; the update chunk is still processed against the stale
transfer buffer. -/
theorem C10_witness :
    (8 : Nat) ≠ 0 ∧
    (update_loop ⟨4, 16, 4⟩ allOk (fun _ => false) 8 0
      (fun _ => [9, 9, 9, 9]) ⟨[1, 2, 3, 4], 4⟩ [9, 9, 9, 9] 0 8).results.head?
      = some (winc_sector_write ⟨4, 16, 4⟩ allOk (fun _ => [9, 9, 9, 9])
          [9, 9, 9, 9] 0).1 :=
  ⟨by decide,
    ((C10_container_read_error_iff_negative ⟨4, 16, 4⟩ allOk (fun _ => false)
      7 0 (fun _ => [9, 9, 9, 9]) ⟨[1, 2, 3, 4], 4⟩ [9, 9, 9, 9] 0 8
      (by decide)).2 rfl (by decide)).1 (by decide)⟩

/-- C4: for a non-protected, sector-aligned destination with working
primitives, winc_sector_write first reads the current sector and
byte-compares it against src; if they are byte-identical it issues no
erase and no write and leaves the Medium unchanged; if they differ it
issues read, then erase, then write — erase strictly preceding write —
and the sector now holds src.  update_loop invokes winc_sector_write for
exactly the chunks outside the Protected Region (lines 424-430). -/
theorem C4_sector_write_policy :
    ∀ (fm : FlashMap) (env : SpiEnv) (m : Medium) (src : List Nat) (dst : Nat),
      dst % fm.sectorSz = 0 →
      env.readOk dst = true →
      env.eraseOk dst = true →
      env.writeOk dst = true →
      (buffers_are_equal src (m dst) fm.sectorSz = true →
        winc_sector_write fm env m src dst =
          (sector_result_t.SECTOR_EQUAL, m, [MediumOp.read dst])) ∧
      (buffers_are_equal src (m dst) fm.sectorSz = false →
        winc_sector_write fm env m src dst =
          (sector_result_t.SECTOR_DIFFER, setSector m dst src,
            [MediumOp.read dst, MediumOp.erase dst, MediumOp.write dst])) := by
  intro fm env m src dst ha hr he hw
  constructor <;> intro hb <;> simp [winc_sector_write, ha, hr, he, hw, hb]

/-- Witness for C4 at a concrete input: a 4-byte sector whose content
differs from src is erased and rewritten, with erase before write. -/
theorem C4_witness :
    (0 % (4 : Nat) = 0) ∧
    (buffers_are_equal [1, 2, 3, 4] [0, 0, 0, 0] 4 = false) ∧
    winc_sector_write ⟨4, 16, 4⟩ allOk (fun _ => [0, 0, 0, 0]) [1, 2, 3, 4] 0 =
      (sector_result_t.SECTOR_DIFFER,
        setSector (fun _ => [0, 0, 0, 0]) 0 [1, 2, 3, 4],
        [MediumOp.read 0, MediumOp.erase 0, MediumOp.write 0]) :=
  ⟨by decide, by decide,
    (C4_sector_write_policy ⟨4, 16, 4⟩ allOk (fun _ => [0, 0, 0, 0])
      [1, 2, 3, 4] 0 (by decide) rfl rfl rfl).2 (by decide)⟩

end WincCloner
